import Mathlib

/-!
Verification of the claude-code-viewer dashboard's derived-data computations.

Each definition below is a shallow embedding of a function from the
repository's React components:

* `fileStatusMap`, `buildFileTree` — src/frontend/src/components/FileChangeModal.tsx
* `getCommonPrefixStr` — the one-shot details modal (OneShotDetailsModal)
* `chartData`, `chartDataAnalytics` — SessionStatsModal.tsx and the
  session-analytics modal
* `handleAddTag`, `handleRemoveTag` — the tag manager in MessageItem.tsx
* `loadOneShotStats`, `runCalls`, `sessionsWithChanges` — the per-session
  one-shot statistics loader and the auto-load effect in ProjectDetails
* `displayScore` — the code-survival score display in OneShotDiffViewer and
  OneShotDetailsModal

JavaScript `Map`/object records are modelled as insertion-ordered association
lists, optional (possibly `undefined`) numeric fields as `Option Int`, and the
outcome of an awaited API call or of `JSON.parse` as an explicit sum type, so
that every definition is executable and every theorem can be evaluated on
concrete inputs.
-/

namespace ClaudeCodeViewer

/-! ### JavaScript helpers -/

/-- JS `x || 0` on an optional number: `undefined` and `0` are falsy. -/
def jsOrZero : Option Int → Int
  | none => 0
  | some v => if v = 0 then 0 else v

/-- JS `String.prototype.lastIndexOf(c)`: index of the last occurrence of the
character `c`, `-1` when absent. -/
def lastIndexOfChar (s : String) (c : Char) : Int :=
  (s.toList.foldl
    (fun (acc : Int × Int) ch => (if ch = c then acc.2 else acc.1, acc.2 + 1))
    (-1, 0)).1

/-- JS `str.length` (code units; the repository's paths are ASCII, where code
units and characters coincide). -/
def jsLength (s : String) : Nat :=
  s.toList.length

/-- Helper for `jsSplitSlash`: split a character list on `/`, accumulating the
current segment in reverse. -/
def splitSlashAux : List Char → List Char → List String
  | [], acc => [String.mk acc.reverse]
  | ch :: rest, acc =>
    if ch = '/' then String.mk acc.reverse :: splitSlashAux rest []
    else splitSlashAux rest (ch :: acc)

/-- JS `path.split('/')` (e.g. `""` gives `[""]`, `"/a"` gives `["", "a"]`). -/
def jsSplitSlash (s : String) : List String :=
  splitSlashAux s.toList []

/-- JS `parts.join('/')`. -/
def joinSlash : List String → String
  | [] => ""
  | [s] => s
  | s :: rest => s ++ ("/") ++ joinSlash rest

/-- JS `String.prototype.trim`. -/
def jsTrim (s : String) : String :=
  String.mk
    (((s.toList.dropWhile Char.isWhitespace).reverse.dropWhile
      Char.isWhitespace).reverse)

/-- JS `s.substring(n)`: drop the first `n` characters. -/
def jsDrop (s : String) (n : Nat) : String :=
  String.mk (s.toList.drop n)

/-- JS `s.substring(0, n)`: take the first `n` characters. -/
def jsTake (s : String) (n : Nat) : String :=
  String.mk (s.toList.take n)

/-- JS `s.replace(/^\//, '')`: strip one leading slash. -/
def stripLeadingSlash (s : String) : String :=
  match s.toList with
  | '/' :: rest => String.mk rest
  | _ => s

/-! ### Code-survival score display (OneShotDiffViewer / OneShotDetailsModal)

`const displayScore = (file.total_lines === 0 && file.retained_lines === 0)
  ? 100 : file.score;`
The two fields are optional in the `FileStat` record, and JS
`undefined === 0` is `false`, hence the `Option Int` arguments. The same
expression occurs verbatim in both components. -/

def displayScore (total_lines retained_lines : Option Int) (score : Int) : Int :=
  if total_lines = some 0 ∧ retained_lines = some 0 then 100 else score

/-! ### Tag manager (MessageItem.tsx, TagManager component) -/

structure Tag where
  id : Int
  name : String
  color : String
  deriving Repr, DecidableEq

/-- Embeds `handleAddTag`: returns the local tag list after the handler runs.
The handler first rejects a name with empty trim (no API call is made); then
awaits `api.addTag`; on success appends `{ id: Date.now(), name: newTagName,
color: 'blue' }`; a rejected call is caught and leaves the list unchanged.
`apiOk` is the outcome of the awaited call, `now` stands for `Date.now()`. -/
def handleAddTag (tags : List Tag) (newTagName : String) (apiOk : Bool)
    (now : Int) : List Tag :=
  if jsTrim newTagName = "" then tags
  else if apiOk then tags ++ [{ id := now, name := newTagName, color := "blue" }]
  else tags

/-- Embeds `handleRemoveTag`: on API success keeps exactly the tags whose name differs
from `tagName` (`prev.filter(t => t.name !== tagName)`); a rejected call is
caught and leaves the list unchanged. -/
def handleRemoveTag (tags : List Tag) (tagName : String) (apiOk : Bool) :
    List Tag :=
  if apiOk then tags.filter (fun t => decide (t.name ≠ tagName)) else tags

/-! ### Token-usage chart data (SessionStatsModal.tsx / SessionAnalyticsModal)

`session.token_usage_history` is an optional JSON string. The component
returns `[]` when the field is falsy, then runs `JSON.parse` inside
`try/catch`, returning `[]` on any exception (a parse error, or the parsed
value not being an array so that `.map` throws). `JSON.parse` is a platform
builtin, so its outcome on the stored string is modelled as an explicit sum:
-/

/-- One entry of the parsed token-usage history array. The `timestamp` string
is carried verbatim; its display formatting (`new Date(...).toLocaleTimeString()`)
is a platform `Date` API and is not modelled. -/
structure TokenEntry where
  input : Int
  output : Int
  total : Int
  timestamp : String
  deriving Repr, DecidableEq

/-- The session's `token_usage_history` field combined with the outcome of
`JSON.parse` on it. `absent` covers a falsy field (missing, null or empty
string); `malformed` covers a string on which `JSON.parse` throws or whose
parse result is not an array (so that `.map` throws, caught by the same
`catch`); `entries l` covers a string parsing as a JSON array. -/
inductive TokenHistoryField where
  | absent
  | malformed
  | entries (l : List TokenEntry)
  deriving Repr, DecidableEq

/-- A chart point as built by both modals. -/
structure ChartPoint where
  name : String
  input : Int
  output : Int
  total : Int
  time : String
  deriving Repr, DecidableEq

/-- Embeds `chartData` from SessionStatsModal.tsx:
`history.map((h, i) => ({ name: `Turn ${i+1}`, input: h.input, output:
h.output, total: h.total, time: ... }))`, with `[]` for a falsy field and on
a caught parse error. -/
def chartData : TokenHistoryField → List ChartPoint
  | .absent => []
  | .malformed => []
  | .entries l =>
    l.enum.map (fun p =>
      { name := "Turn " ++ toString (p.1 + 1)
        input := p.2.input
        output := p.2.output
        total := p.2.total
        time := p.2.timestamp })

/-- Embeds `chartData` from the session-analytics modal (src/unnamed/part_002): same
shape, but the label is the translation `t('analytics.turn')` (passed here as
`turnLabel`), each numeric field goes through `|| 0`, and the time falls back
to the empty string when the timestamp is falsy. -/
def chartDataAnalytics (turnLabel : String) : TokenHistoryField → List ChartPoint
  | .absent => []
  | .malformed => []
  | .entries l =>
    l.enum.map (fun p =>
      { name := turnLabel ++ " " ++ toString (p.1 + 1)
        input := if p.2.input = (0 : Int) then (0 : Int) else p.2.input
        output := if p.2.output = (0 : Int) then (0 : Int) else p.2.output
        total := if p.2.total = (0 : Int) then (0 : Int) else p.2.total
        time := if p.2.timestamp = "" then "" else p.2.timestamp })

/-! ### One-shot statistics loading (ProjectDetails, src/unnamed/part_002)

The component keeps two pieces of state keyed by session id:
`oneShotStats : Record<string, OneShotStats>` and
`loadingStats : Record<string, boolean>`. Records read through `[]` are
modelled extensionally as functions (`undefined` entries are `none` / `false`).
-/

structure FileStat where
  path : String
  score : Int
  status : String
  deriving Repr, DecidableEq

structure OneShotStats where
  overall_score : Int
  file_count : Int
  file_stats : List FileStat
  deriving Repr, DecidableEq

/-- The updater passed to `setOneShotStats`:
`prev => ({ ...prev, [sessionId]: stats })`, read extensionally. -/
def applyStats (m : String → Option OneShotStats) (sessionId : String)
    (stats : OneShotStats) : String → Option OneShotStats :=
  fun k => if k = sessionId then some stats else m k

structure OneShotState where
  oneShotStats : String → Option OneShotStats
  loadingStats : String → Bool

/-- The component's initial state: both records empty. -/
def emptyOneShotState : OneShotState :=
  { oneShotStats := fun _ => none, loadingStats := fun _ => false }

/-- Outcome of the awaited `api.getOneShotStats` call. -/
inductive ApiOutcome where
  | ok (stats : OneShotStats)
  | err
  deriving Repr, DecidableEq

/-- Embeds `loadOneShotStats`, run to completion as one sequential step (each call of
the auto-load effect targets a distinct session id, and the guard is checked
synchronously before the request is issued). Returns the new state and whether
a request was issued. The body: guard
`if (loadingStats[sessionId] || oneShotStats[sessionId]) return;` — then the
id is marked loading, the API call is awaited, a successful result is written
via `applyStats`, an error is caught and writes nothing, and the `finally`
block marks the id not loading. -/
def loadOneShotStats (st : OneShotState) (sessionId : String)
    (outcome : ApiOutcome) : OneShotState × Bool :=
  if st.loadingStats sessionId || (st.oneShotStats sessionId).isSome then
    (st, false)
  else
    match outcome with
    | .ok stats =>
      ({ oneShotStats := applyStats st.oneShotStats sessionId stats
         loadingStats := fun k => if k = sessionId then false else st.loadingStats k },
       true)
    | .err =>
      ({ oneShotStats := st.oneShotStats
         loadingStats := fun k => if k = sessionId then false else st.loadingStats k },
       true)

/-- Run a sequence of `loadOneShotStats` calls; returns the final state, the
list of session ids for which a result write (`setOneShotStats`) occurred,
and the list of session ids for which a request was issued. -/
def runCalls (st : OneShotState) : List (String × ApiOutcome) →
    OneShotState × List String × List String
  | [] => (st, [], [])
  | (sid, oc) :: rest =>
    let step := loadOneShotStats st sid oc
    let wrote := step.2 && (match oc with | .ok _ => true | .err => false)
    let next := runCalls step.1 rest
    (next.1,
     (if wrote then [sid] else []) ++ next.2.1,
     (if step.2 then [sid] else []) ++ next.2.2)

/-- The session record, as used by ProjectDetails (the `Session` type itself
lives in the repository's `types.ts`, which only its importers appear in the
sources; the fields modelled here are the ones the component reads:
`s.id` and the optional `s.file_change_count`). -/
structure Session where
  id : String
  file_change_count : Option Int
  deriving Repr, DecidableEq

/-- The auto-load effect's filter:
`sessions.filter(s => (s.file_change_count || 0) > 0)`. -/
def sessionsWithChanges (sessions : List Session) : List Session :=
  sessions.filter (fun s => decide (0 < jsOrZero s.file_change_count))

/-- The auto-load effect: starting from the given state it invokes
`loadOneShotStats` once for each filtered session, with the given API
outcomes (`outcomes` assigns each session id its call result). Returns the
final state and the issued-request flags are recoverable through `runCalls`;
here we expose the list of calls it makes. -/
def autoLoadCalls (sessions : List Session) (outcomes : String → ApiOutcome) :
    List (String × ApiOutcome) :=
  (sessionsWithChanges sessions).map (fun s => (s.id, outcomes s.id))

/-! ### Per-file status map (FileChangeModal.tsx, `fileStatusMap`)

A JS `Map<string, string>` filled by
`changes.forEach(c => { const current = map.get(c.path); if (current ===
'write') return; map.set(c.path, c.type); })`, modelled as an
insertion-ordered association list (`set` updates in place or appends). -/

structure FileChange where
  tool : String
  type : String
  path : String
  timestamp : String
  content : Option String
  target_content : Option String
  diff : Option String
  deriving Repr, DecidableEq

/-- JS `Map.prototype.get`. -/
def mapGet (m : List (String × String)) (k : String) : Option String :=
  match m with
  | [] => none
  | (k', v) :: rest => if k' = k then some v else mapGet rest k

/-- JS `Map.prototype.set`: update in place, or append a new key. -/
def mapSet (m : List (String × String)) (k v : String) :
    List (String × String) :=
  match m with
  | [] => [(k, v)]
  | (k', v') :: rest =>
    if k' = k then (k, v) :: rest else (k', v') :: mapSet rest k v

/-- One step of the `changes.forEach` body. -/
def fileStatusStep (m : List (String × String)) (c : FileChange) :
    List (String × String) :=
  match mapGet m c.path with
  | some s => if s = "write" then m else mapSet m c.path c.type
  | none => mapSet m c.path c.type

/-- Embeds `fileStatusMap` from FileChangeModal.tsx. -/
def fileStatusMap (changes : List FileChange) : List (String × String) :=
  changes.foldl fileStatusStep []

/-! ### File tree construction (FileChangeModal.tsx, `buildFileTree`) and the
common path-prefix of the one-shot details modal (`getCommonPrefix`)

JS objects used as records (`Record<string, TreeNode>`) are modelled as
insertion-ordered association lists: property update keeps the key's
position, a new property is appended. -/

/-- The `TreeNode` interface of FileChangeModal.tsx. -/
inductive TreeNode where
  | mk (name : String) (fullPath : Option String) (status : Option String)
       (isOpen : Bool) (children : List (String × TreeNode))
  deriving Repr

def TreeNode.name : TreeNode → String
  | .mk n _ _ _ _ => n

def TreeNode.fullPath : TreeNode → Option String
  | .mk _ f _ _ _ => f

def TreeNode.status : TreeNode → Option String
  | .mk _ _ s _ _ => s

def TreeNode.isOpen : TreeNode → Bool
  | .mk _ _ _ o _ => o

def TreeNode.children : TreeNode → List (String × TreeNode)
  | .mk _ _ _ _ c => c

/-- JS object property read `obj[k]`. -/
def recordGet {α : Type} (m : List (String × α)) (k : String) : Option α :=
  match m with
  | [] => none
  | (k', v) :: rest => if k' = k then some v else recordGet rest k

/-- JS object property write `obj[k] = v`: in-place update or append. -/
def recordSet {α : Type} (m : List (String × α)) (k : String) (v : α) :
    List (String × α) :=
  match m with
  | [] => [(k, v)]
  | (k', v') :: rest =>
    if k' = k then (k, v) :: rest else (k', v') :: recordSet rest k v

/-- The `parts.forEach` body of `buildFileTree`: walk the segment list,
creating missing nodes (`{ name: part, children: {}, isOpen: true }`), and on
the last segment record the file's `fullPath` and `status` on that node. -/
def insertParts (path : String) (stat : Option String) :
    List String → List (String × TreeNode) → List (String × TreeNode)
  | [], m => m
  | part :: rest, m =>
    let node0 := (recordGet m part).getD (.mk part none none true [])
    let fp := if rest = [] then some path else node0.fullPath
    let stv := if rest = [] then stat else node0.status
    recordSet m part
      (.mk node0.name fp stv node0.isOpen
        (insertParts path stat rest node0.children))

/-- JS `Math.min(...lengths)` on a non-empty spread (the empty case is
guarded before the call; `Math.min()` with no arguments would be Infinity). -/
def listMin : List Nat → Nat
  | [] => 0
  | [n] => n
  | n :: rest => min n (listMin rest)

/-- The common-prefix loop shared verbatim by `buildFileTree`
(FileChangeModal.tsx lines 44-51) and `getCommonPrefix` (the one-shot details
modal, lines 59-66):
`for (let i = 0; i < minLen - 1; i++) { const segment = splitPaths[0][i];
if (splitPaths.every(p => p[i] === segment)) push(segment); else break; }`.
`fuel` is the number of remaining iterations (`minLen - 1` at the call),
`i` the current index; the `none` branch is unreachable at the call sites
because `i` stays below the length of every split path. -/
def commonPrefixLoop (sps : List (List String)) (first : List String) :
    Nat → Nat → List String
  | 0, _ => []
  | fuel + 1, i =>
    match first[i]? with
    | none => []
    | some segment =>
      if sps.all (fun p => decide (p[i]? = some segment)) then
        segment :: commonPrefixLoop sps first fuel (i + 1)
      else []

/-- Embeds `buildFileTree` from FileChangeModal.tsx. The input is the
`Map<string, string>` produced by `fileStatusMap` (an association list here);
the result is the pair of the tree root record and the common prefix string. -/
def buildFileTree (fileMap : List (String × String)) :
    (List (String × TreeNode)) × String :=
  let paths := fileMap.map Prod.fst
  if paths = [] then ([], "")
  else
    let splitPaths := paths.map jsSplitSlash
    let minLen := listMin (splitPaths.map List.length)
    let commonParts := commonPrefixLoop splitPaths (splitPaths.headD []) (minLen - 1) 0
    let prefixString := joinSlash commonParts
    let root := paths.foldl (fun r path =>
      let relativePath := stripLeadingSlash (jsDrop path (jsLength prefixString))
      let parts := jsSplitSlash relativePath
      if parts = [""] then r
      else insertParts path (mapGet fileMap path) parts r) []
    (root, prefixString)

/-- Embeds `getCommonPrefix` from the one-shot details modal (src/unnamed/part_001):
empty input gives `''`; a single path keeps everything up to and including its
last slash when `lastIndexOf('/') > 0`; otherwise the shared loop runs and the
joined parts get a trailing slash when non-empty. -/
def getCommonPrefixStr (strs : List String) : String :=
  match strs with
  | [] => ""
  | [s] =>
    let lastSlash := lastIndexOfChar s ('/')
    if lastSlash > 0 then jsTake s (lastSlash + 1).toNat else ""
  | _ =>
    let splitPaths := strs.map jsSplitSlash
    let minLength := listMin (splitPaths.map List.length)
    let commonParts :=
      commonPrefixLoop splitPaths (splitPaths.headD []) (minLength - 1) 0
    if commonParts.length > 0 then joinSlash commonParts ++ ("/") else ""

/-! ### Spec-side definitions for claim C1

These follow the claim's words, not the source: a shared leading-segment
sequence, and the claim that the returned prefix joins a maximal one. -/

/-- Spec-side for claim C1: `segs` is a sequence of leading segments (after splitting on `/`) shared
by every path in `paths`. -/
def sharedLeadingSegs (paths : List String) (segs : List String) : Prop :=
  ∀ p ∈ paths, (jsSplitSlash p).take segs.length = segs

/-- Claim C1 at one input: the string `result` is the `/`-join of a maximal
sequence of leading segments shared by every path. -/
def claimedLongestCommon (paths : List String) (result : String) : Prop :=
  ∃ segs, sharedLeadingSegs paths segs ∧
    (∀ segs', sharedLeadingSegs paths segs' → segs'.length ≤ segs.length) ∧
    result = joinSlash segs

/-- The corrected notion both implementations actually compute: a maximal
shared leading-segment sequence among those that leave at least one segment
of the shortest split path out (length at most `minLen - 1`, written
`length + 1 ≤ minLen`). -/
def cappedLongestCommon (paths : List String) (segs : List String) : Prop :=
  sharedLeadingSegs paths segs ∧
  segs.length + 1 ≤ listMin ((paths.map jsSplitSlash).map List.length) ∧
  ∀ segs', sharedLeadingSegs paths segs' →
    segs'.length + 1 ≤ listMin ((paths.map jsSplitSlash).map List.length) →
    segs'.length ≤ segs.length

/-- Spec-side for claim C9: the type of the last change in input order
(`none` for an empty list). -/
def jsLastType : List String → Option String
  | [] => none
  | [t] => some t
  | _ :: rest => jsLastType rest

/-! ## Theorems -/

/-- C10: for every file record, the displayed survival score is 100 exactly
when both `total_lines` and `retained_lines` equal 0 (an absent field is not
equal to 0, as in JS `undefined === 0`), and is the record's `score` field in
every other case. The expression is shared verbatim by OneShotDiffViewer and
OneShotDetailsModal. -/
theorem c10_displayScore_cases (t r : Option Int) (s : Int) :
    (t = some 0 ∧ r = some 0 → displayScore t r s = 100) ∧
    (¬(t = some 0 ∧ r = some 0) → displayScore t r s = s) := by
  constructor <;> intro h <;> simp [displayScore, h]

/-- Witness for C10 at concrete inputs. -/
theorem c10_displayScore_cases_witness :
    displayScore (some 0) (some 0) 7 = 100 ∧
    displayScore none (some 0) 7 = 7 :=
  ⟨(c10_displayScore_cases (some 0) (some 0) 7).1 ⟨rfl, rfl⟩,
   (c10_displayScore_cases none (some 0) 7).2 (by simp)⟩

/-- C6: the tag manager's handlers are atomic for the local list: a rejected
add or remove call leaves the list unchanged; a successful remove keeps
exactly the tags whose name differs from the given name; a successful add
(possible only when the trimmed name is non-empty) appends one tag bearing
the entered name. -/
theorem c6_tagManager_atomic (tags : List Tag) (n : String) (now : Int) :
    (handleAddTag tags n false now = tags) ∧
    (handleRemoveTag tags n false = tags) ∧
    (∀ t, t ∈ handleRemoveTag tags n true ↔ t ∈ tags ∧ t.name ≠ n) ∧
    (jsTrim n ≠ "" →
      ∃ tg, tg.name = n ∧ handleAddTag tags n true now = tags ++ [tg]) := by
  refine ⟨?_, ?_, ?_, ?_⟩
  · unfold handleAddTag; split <;> simp
  · simp [handleRemoveTag]
  · intro t; simp [handleRemoveTag, List.mem_filter]
  · intro h
    exact ⟨{ id := now, name := n, color := "blue" }, rfl,
      by simp [handleAddTag, h]⟩

/-- Witness for C6 at concrete inputs. -/
theorem c6_tagManager_atomic_witness :
    (handleAddTag [] ("docs") false 5 = []) ∧
    (∃ tg, tg.name = "docs" ∧ handleAddTag [] ("docs") true 5 = [] ++ [tg]) :=
  ⟨(c6_tagManager_atomic [] ("docs") 5).1,
   (c6_tagManager_atomic [] ("docs") 5).2.2.2 (by decide)⟩

/-- C5: when the `token_usage_history` field is absent (falsy) or fails to
parse, both chart-data computations return the empty list; the embedding is a
total function, so no exception escapes (the component's `try/catch` turns
any parse exception into the same empty result). -/
theorem c5_chartData_fallback :
    chartData .absent = [] ∧ chartData .malformed = [] ∧
    ∀ lbl, chartDataAnalytics lbl .absent = [] ∧
      chartDataAnalytics lbl .malformed = [] :=
  ⟨rfl, rfl, fun _ => ⟨rfl, rfl⟩⟩

/-- C4: on a history that parses as an array of `n` entries, the chart-data
computation returns exactly `n` points in order; the point at index `i` is
named `Turn i+1` and carries the `i`-th entry's input, output and total
values. The analytics-modal variant (whose label is the translation of
`analytics.turn`, passed as `lbl`) produces the same values. -/
theorem c4_chartData_points (l : List TokenEntry) (i : Nat) (lbl : String) :
    (chartData (.entries l)).length = l.length ∧
    (chartData (.entries l))[i]? = (l[i]?).map (fun h =>
      { name := "Turn " ++ toString (i + 1), input := h.input,
        output := h.output, total := h.total, time := h.timestamp }) ∧
    (chartDataAnalytics lbl (.entries l)).length = l.length ∧
    (chartDataAnalytics lbl (.entries l))[i]? = (l[i]?).map (fun h =>
      { name := lbl ++ " " ++ toString (i + 1), input := h.input,
        output := h.output, total := h.total,
        time := if h.timestamp = "" then "" else h.timestamp }) := by
  refine ⟨?_, ?_, ?_, ?_⟩
  · simp [chartData]
  · simp only [chartData, List.getElem?_map, List.getElem?_enum, Option.map_map]
    cases l[i]? <;> simp
  · simp [chartDataAnalytics]
  · simp only [chartDataAnalytics, List.getElem?_map, List.getElem?_enum,
      Option.map_map]
    cases hx : l[i]? with
    | none => simp
    | some h =>
      simp only [Option.map_some', Function.comp_apply]
      refine congrArg some ?_
      simp only [ChartPoint.mk.injEq]
      refine ⟨trivial, ?_, ?_, ?_, trivial⟩ <;> split <;> omega

/-- C2: applying completed statistics results to the per-session record is
commutative for distinct session ids and idempotent for a repeated identical
result. -/
theorem c2_applyStats_comm_idem (m : String → Option OneShotStats)
    (k1 k2 x : String) (v1 v2 : OneShotStats) :
    (k1 ≠ k2 →
      applyStats (applyStats m k1 v1) k2 v2 x =
        applyStats (applyStats m k2 v2) k1 v1 x) ∧
    applyStats (applyStats m k1 v1) k1 v1 x = applyStats m k1 v1 x := by
  constructor
  · intro hne
    simp only [applyStats]
    by_cases h1 : x = k1 <;> by_cases h2 : x = k2
    · exact absurd (h1 ▸ h2) hne
    · simp only [h1, if_pos rfl, if_neg (h1 ▸ h2)]
    · simp only [h2, if_pos rfl, if_neg (h2 ▸ h1)]
    · simp [h1, h2]
  · simp only [applyStats]
    by_cases h1 : x = k1 <;> simp [h1]

/-- Witness for C2 at concrete inputs. -/
theorem c2_applyStats_comm_idem_witness :
    applyStats (applyStats (fun _ => none) ("s1") ⟨100, 1, []⟩) ("s2") ⟨50, 2, []⟩ ("s1") =
      applyStats (applyStats (fun _ => none) ("s2") ⟨50, 2, []⟩) ("s1") ⟨100, 1, []⟩ ("s1") :=
  (c2_applyStats_comm_idem (fun _ => none) ("s1") ("s2") ("s1")
    ⟨100, 1, []⟩ ⟨50, 2, []⟩).1 (by decide)

/-- C8: `buildFileTree` is total, with empty input as its only special case:
the empty map yields the empty tree root and the empty prefix, and every
input yields a result (the embedding is a total function; the one JS failure
mode, `Math.min()` of an empty spread, is behind the emptiness guard). -/
theorem c8_buildFileTree_total :
    buildFileTree [] = ([], "") ∧
    ∀ fm : List (String × String), ∃ root pre, buildFileTree fm = (root, pre) :=
  ⟨rfl, fun fm => ⟨(buildFileTree fm).1, (buildFileTree fm).2, rfl⟩⟩

/-! ### Helper lemmas on the one-shot loader -/

/-- The early-return guard: an in-flight or already-loaded session id makes
`loadOneShotStats` a no-op that issues no request. -/
theorem loadOneShotStats_guard (st : OneShotState) (sid : String)
    (oc : ApiOutcome)
    (h : st.loadingStats sid = true ∨ (st.oneShotStats sid).isSome = true) :
    loadOneShotStats st sid oc = (st, false) := by
  unfold loadOneShotStats
  rcases h with h | h <;> simp [h]

/-- A call for `sid` never touches the state at another key. -/
theorem loadOneShotStats_other (st : OneShotState) (sid : String)
    (oc : ApiOutcome) (k : String) (hk : k ≠ sid) :
    (loadOneShotStats st sid oc).1.oneShotStats k = st.oneShotStats k ∧
    (loadOneShotStats st sid oc).1.loadingStats k = st.loadingStats k := by
  unfold loadOneShotStats
  split
  · exact ⟨rfl, rfl⟩
  · cases oc <;> simp [applyStats, hk]

/-- A passing guard on a successful call writes the result at `sid` and
clears its loading flag. -/
theorem loadOneShotStats_pass_ok (st : OneShotState) (sid : String)
    (v : OneShotStats) (h1 : st.loadingStats sid = false)
    (h2 : st.oneShotStats sid = none) :
    loadOneShotStats st sid (.ok v) =
      ({ oneShotStats := applyStats st.oneShotStats sid v
         loadingStats := fun k => if k = sid then false else st.loadingStats k },
       true) := by
  unfold loadOneShotStats
  simp [h1, h2]

/-- A passing guard on a failing call writes nothing. -/
theorem loadOneShotStats_pass_err (st : OneShotState) (sid : String)
    (h1 : st.loadingStats sid = false) (h2 : st.oneShotStats sid = none) :
    loadOneShotStats st sid .err =
      ({ oneShotStats := st.oneShotStats
         loadingStats := fun k => if k = sid then false else st.loadingStats k },
       true) := by
  unfold loadOneShotStats
  simp [h1, h2]

/-- Unfolding lemma for `runCalls` on a cons cell. -/
theorem runCalls_cons (st : OneShotState) (sid : String) (oc : ApiOutcome)
    (rest : List (String × ApiOutcome)) :
    runCalls st ((sid, oc) :: rest) =
      ((runCalls (loadOneShotStats st sid oc).1 rest).1,
       (if (loadOneShotStats st sid oc).2 &&
           (match oc with | .ok _ => true | .err => false)
        then [sid] else []) ++ (runCalls (loadOneShotStats st sid oc).1 rest).2.1,
       (if (loadOneShotStats st sid oc).2 then [sid] else []) ++
         (runCalls (loadOneShotStats st sid oc).1 rest).2.2) := rfl

/-- Once a result is present for `k`, it stays present under any call. -/
theorem loadOneShotStats_some_mono (st : OneShotState) (sid : String)
    (oc : ApiOutcome) (k : String) (h : (st.oneShotStats k).isSome = true) :
    ((loadOneShotStats st sid oc).1.oneShotStats k).isSome = true := by
  unfold loadOneShotStats
  split
  · exact h
  · cases oc with
    | ok v =>
      show (applyStats st.oneShotStats sid v k).isSome = true
      unfold applyStats
      split
      · rfl
      · exact h
    | err => exact h

/-- Per-key write bound: a run of sequential calls writes a result for key
`k` at most once, and not at all when a result for `k` is already present. -/
theorem runCalls_writes_count (calls : List (String × ApiOutcome)) :
    ∀ (st : OneShotState) (k : String),
    (runCalls st calls).2.1.count k ≤
      (if (st.oneShotStats k).isSome then 0 else 1) := by
  induction calls with
  | nil =>
    intro st k
    simp [runCalls]
  | cons c rest ih =>
    intro st k
    obtain ⟨sid, oc⟩ := c
    rw [runCalls_cons]
    by_cases hg : st.loadingStats sid = true ∨ (st.oneShotStats sid).isSome = true
    · rw [loadOneShotStats_guard st sid oc hg]
      simpa using ih st k
    · push_neg at hg
      obtain ⟨hl0, hs⟩ := hg
      have hl : st.loadingStats sid = false := by
        cases hx : st.loadingStats sid
        · rfl
        · exact absurd hx hl0
      have hs' : st.oneShotStats sid = none := by
        cases hx : st.oneShotStats sid with
        | none => rfl
        | some v => exact absurd (by simp [hx]) hs
      cases oc with
      | err =>
        rw [loadOneShotStats_pass_err st sid hl hs']
        simpa using ih _ k
      | ok v =>
        rw [loadOneShotStats_pass_ok st sid v hl hs']
        show List.count k (sid ::
          (runCalls
            { oneShotStats := applyStats st.oneShotStats sid v
              loadingStats := fun k2 => if k2 = sid then false
                else st.loadingStats k2 }
            rest).2.1) ≤ if (st.oneShotStats k).isSome = true then 0 else 1
        rw [List.count_cons]
        by_cases hk : k = sid
        · subst hk
          have hbound := ih
            { oneShotStats := applyStats st.oneShotStats k v
              loadingStats := fun k2 => if k2 = k then false
                else st.loadingStats k2 } k
          have hsome : (applyStats st.oneShotStats k v k).isSome = true := by
            simp [applyStats]
          have h0 : List.count k
              (runCalls
                { oneShotStats := applyStats st.oneShotStats k v
                  loadingStats := fun k2 => if k2 = k then false
                    else st.loadingStats k2 }
                rest).2.1 = 0 :=
            Nat.le_zero.mp (by simpa [hsome] using hbound)
          rw [h0, hs']
          simp
        · have hbound := ih
            { oneShotStats := applyStats st.oneShotStats sid v
              loadingStats := fun k2 => if k2 = sid then false
                else st.loadingStats k2 } k
          have heq : applyStats st.oneShotStats sid v k = st.oneShotStats k := by
            simp [applyStats, hk]
          have hb2 : List.count k
              (runCalls
                { oneShotStats := applyStats st.oneShotStats sid v
                  loadingStats := fun k2 => if k2 = sid then false
                    else st.loadingStats k2 }
                rest).2.1 ≤ if (st.oneShotStats k).isSome = true then 0 else 1 := by
            simpa [heq] using hbound
          simp only [beq_iff_eq]
          rw [if_neg (fun hc : sid = k => hk hc.symm), Nat.add_zero]
          exact hb2

/-- Requests are only issued for ids appearing in the call list. -/
theorem runCalls_issued_subset (calls : List (String × ApiOutcome)) :
    ∀ (st : OneShotState) (k : String),
    k ∈ (runCalls st calls).2.2 → k ∈ calls.map Prod.fst := by
  induction calls with
  | nil =>
    intro st k h
    simp [runCalls] at h
  | cons c rest ih =>
    intro st k h
    obtain ⟨sid, oc⟩ := c
    rw [runCalls_cons] at h
    rcases List.mem_append.mp h with h | h
    · have hk : k = sid := by
        split at h
        · simpa using h
        · simp at h
      subst hk
      simp [List.map_cons]
    · simp only [List.map_cons]
      exact List.mem_cons_of_mem _ (ih _ k h)

/-- From a state that is clean at `k` (not loading, no result), every id in
the call list gets a request issued. -/
theorem runCalls_issued_complete (calls : List (String × ApiOutcome)) :
    ∀ (st : OneShotState) (k : String),
    st.loadingStats k = false → st.oneShotStats k = none →
    k ∈ calls.map Prod.fst → k ∈ (runCalls st calls).2.2 := by
  induction calls with
  | nil =>
    intro st k _ _ hmem
    simp at hmem
  | cons c rest ih =>
    intro st k hl hs hmem
    obtain ⟨sid, oc⟩ := c
    rw [runCalls_cons]
    by_cases hk : k = sid
    · subst hk
      have hpass : (loadOneShotStats st k oc).2 = true := by
        cases oc with
        | ok v => rw [loadOneShotStats_pass_ok st k v hl hs]
        | err => rw [loadOneShotStats_pass_err st k hl hs]
      rw [hpass]
      exact List.mem_append.mpr (Or.inl (by simp))
    · have hmem' : k ∈ rest.map Prod.fst := by
        rcases List.mem_cons.mp hmem with h | h
        · exact absurd h hk
        · exact h
      have hloc := loadOneShotStats_other st sid oc k hk
      exact List.mem_append.mpr
        (Or.inr (ih _ k (hloc.2.trans hl) (hloc.1.trans hs) hmem'))

/-- The ids of the auto-load call list are the filtered sessions' ids. -/
theorem autoLoadCalls_ids (sessions : List Session)
    (outcomes : String → ApiOutcome) :
    (autoLoadCalls sessions outcomes).map Prod.fst =
      (sessionsWithChanges sessions).map Session.id := by
  simp [autoLoadCalls, List.map_map]

/-! ### Claims C3 and C7 -/

/-- C3: when a project's session list loads (empty statistics state), the
auto-load effect issues one-shot statistics requests for exactly the sessions
whose `file_change_count` is positive; a session whose count is absent or
zero is never in the filtered set. -/
theorem c3_autoLoad_exactly_positive (sessions : List Session)
    (outcomes : String → ApiOutcome) (s : Session) (k : String) :
    (s ∈ sessionsWithChanges sessions ↔
      s ∈ sessions ∧ 0 < jsOrZero s.file_change_count) ∧
    ((s.file_change_count = none ∨ s.file_change_count = some 0) →
      s ∉ sessionsWithChanges sessions) ∧
    (k ∈ (runCalls emptyOneShotState (autoLoadCalls sessions outcomes)).2.2 ↔
      k ∈ (sessionsWithChanges sessions).map Session.id) := by
  have hmem : ∀ t : Session, t ∈ sessionsWithChanges sessions ↔
      t ∈ sessions ∧ 0 < jsOrZero t.file_change_count := by
    intro t
    simp [sessionsWithChanges, List.mem_filter]
  refine ⟨hmem s, ?_, ?_⟩
  · intro h hin
    have := ((hmem s).mp hin).2
    rcases h with h | h <;> simp [h, jsOrZero] at this
  · constructor
    · intro h
      have := runCalls_issued_subset _ _ _ h
      rwa [autoLoadCalls_ids] at this
    · intro h
      refine runCalls_issued_complete _ _ _ rfl rfl ?_
      rwa [autoLoadCalls_ids]

/-- Witness for C3 at concrete inputs. -/
theorem c3_autoLoad_exactly_positive_witness :
    (⟨"s1", none⟩ : Session) ∉
      sessionsWithChanges [(⟨"s1", none⟩ : Session), ⟨"s2", some 3⟩] :=
  (c3_autoLoad_exactly_positive [⟨"s1", none⟩, ⟨"s2", some 3⟩]
    (fun _ => .err) ⟨"s1", none⟩ ("s2")).2.1 (Or.inl rfl)

/-- C7: invoking the loader for a session id whose statistics are present or
whose request is in flight performs no request and changes neither record;
consequently a sequential run of calls from the initial empty state writes a
result at most once per session key. -/
theorem c7_loader_guard_single_write (st : OneShotState) (sid : String)
    (oc : ApiOutcome) (calls : List (String × ApiOutcome)) (k : String) :
    ((st.loadingStats sid = true ∨ (st.oneShotStats sid).isSome = true) →
      loadOneShotStats st sid oc = (st, false)) ∧
    (runCalls emptyOneShotState calls).2.1.count k ≤ 1 := by
  constructor
  · exact loadOneShotStats_guard st sid oc
  · have := runCalls_writes_count calls emptyOneShotState k
    simpa [emptyOneShotState] using this

/-- Witness for C7 at concrete inputs. -/
theorem c7_loader_guard_single_write_witness :
    loadOneShotStats
        { oneShotStats := fun _ => none, loadingStats := fun _ => true }
        ("s1") .err =
      ({ oneShotStats := fun _ => none, loadingStats := fun _ => true },
       false) ∧
    (runCalls emptyOneShotState [(("s1"), .err), (("s1"), .err)]).2.1.count
      ("s1") ≤ 1 :=
  ⟨(c7_loader_guard_single_write
      { oneShotStats := fun _ => none, loadingStats := fun _ => true }
      ("s1") .err [(("s1"), .err), (("s1"), .err)] ("s1")).1 (Or.inl rfl),
   (c7_loader_guard_single_write
      { oneShotStats := fun _ => none, loadingStats := fun _ => true }
      ("s1") .err [(("s1"), .err), (("s1"), .err)] ("s1")).2⟩

/-! ### Helper lemmas for the per-file status map (claim C9) -/

theorem mapGet_mapSet_self (m : List (String × String)) (k v : String) :
    mapGet (mapSet m k v) k = some v := by
  induction m with
  | nil => simp [mapSet, mapGet]
  | cons kv rest ih =>
    obtain ⟨k', v'⟩ := kv
    by_cases h : k' = k
    · simp [mapSet, mapGet, h]
    · simp [mapSet, mapGet, h, ih]

theorem mapGet_mapSet_ne (m : List (String × String)) (k v p : String)
    (h : p ≠ k) :
    mapGet (mapSet m k v) p = mapGet m p := by
  induction m with
  | nil =>
    simp only [mapSet, mapGet]
    rw [if_neg (fun hc : k = p => h hc.symm)]
  | cons kv rest ih =>
    obtain ⟨k', v'⟩ := kv
    by_cases hk : k' = k
    · subst hk
      simp only [mapSet, mapGet, if_pos rfl]
      rw [if_neg (fun hc : k' = p => h hc.symm),
        if_neg (fun hc : k' = p => h hc.symm)]
    · simp [mapSet, mapGet, hk, ih]

theorem jsLastType_isSome (l : List String) (h : l ≠ []) :
    ∃ x, jsLastType l = some x := by
  induction l with
  | nil => exact absurd rfl h
  | cons a rest ih =>
    cases rest with
    | nil => exact ⟨a, rfl⟩
    | cons b bs => exact ih (List.cons_ne_nil b bs)

theorem jsLastType_eq_none (l : List String) :
    jsLastType l = none ↔ l = [] := by
  cases l with
  | nil => simp [jsLastType]
  | cons a rest =>
    constructor
    · intro h
      obtain ⟨x, hx⟩ := jsLastType_isSome (a :: rest) (List.cons_ne_nil a rest)
      rw [hx] at h
      exact absurd h (by simp)
    · intro h
      exact absurd h (List.cons_ne_nil a rest)

theorem jsLastType_cons (a : String) (l : List String) :
    jsLastType (a :: l) =
      (match jsLastType l with | some x => some x | none => some a) := by
  cases l with
  | nil => rfl
  | cons b bs =>
    obtain ⟨x, hx⟩ := jsLastType_isSome (b :: bs) (List.cons_ne_nil b bs)
    rw [show jsLastType (a :: b :: bs) = jsLastType (b :: bs) from rfl, hx]

/-- Invariant of the `changes.forEach` fold behind `fileStatusMap`, relative
to an arbitrary starting map. -/
theorem fileStatusMap_fold_spec (cs : List FileChange) :
    ∀ (m : List (String × String)) (p : String),
    mapGet (List.foldl fileStatusStep m cs) p =
      if mapGet m p = some ("write") then some ("write")
      else if (cs.filter (fun c => decide (c.path = p))).any
          (fun c => decide (c.type = "write")) then some ("write")
      else
        (match jsLastType ((cs.filter (fun c => decide (c.path = p))).map
            FileChange.type) with
         | some t => some t
         | none => mapGet m p) := by
  induction cs with
  | nil =>
    intro m p
    simp only [List.foldl_nil, List.filter_nil, List.any_nil, List.map_nil]
    split
    · next h => exact h
    · simp [jsLastType]
  | cons c cs ih =>
    intro m p
    rw [List.foldl_cons, ih]
    by_cases hpath : c.path = p
    · rw [show (c :: cs).filter (fun c2 => decide (c2.path = p)) =
            c :: cs.filter (fun c2 => decide (c2.path = p)) from by
          simp [List.filter_cons, hpath]]
      by_cases hw : mapGet m p = some ("write")
      · have hstep : fileStatusStep m c = m := by
          unfold fileStatusStep
          rw [hpath, hw]
          simp
        rw [hstep]
        simp [hw]
      · have hstep : fileStatusStep m c = mapSet m p c.type := by
          unfold fileStatusStep
          rw [hpath]
          cases hx : mapGet m p with
          | none => rfl
          | some s =>
            have hs : s ≠ "write" := fun hh => hw (by rw [hx, hh])
            simp [hs]
        rw [hstep]
        by_cases hct : c.type = "write"
        · simp [mapGet_mapSet_self, hct, hw, List.any_cons]
        · by_cases hany : (cs.filter (fun c2 => decide (c2.path = p))).any
              (fun c2 => decide (c2.type = "write")) = true
          · simp [mapGet_mapSet_self, hct, hw, hany, List.any_cons]
          · simp only [mapGet_mapSet_self, List.any_cons, List.map_cons,
              jsLastType_cons, hw, if_neg hw]
            cases hjl : jsLastType ((cs.filter
                (fun c2 => decide (c2.path = p))).map FileChange.type) with
            | none => simp [hct, hany, hjl]
            | some t => simp [hct, hany, hjl]
    · rw [show (c :: cs).filter (fun c2 => decide (c2.path = p)) =
            cs.filter (fun c2 => decide (c2.path = p)) from by
          simp [List.filter_cons, hpath]]
      have hget : mapGet (fileStatusStep m c) p = mapGet m p := by
        unfold fileStatusStep
        have hne : p ≠ c.path := fun hc => hpath hc.symm
        cases hx : mapGet m c.path with
        | none => exact mapGet_mapSet_ne m c.path c.type p hne
        | some s =>
          by_cases hsw : s = "write"
          · simp [hsw]
          · simp [hsw, mapGet_mapSet_ne m c.path c.type p hne]
      rw [hget]

/-- C9: in the file-change modal's per-file status map, the key set is
exactly the set of paths occurring in the change list, and a path maps to
`write` exactly when some change for it has type `write`; otherwise it maps
to the type of its last change in input order. -/
theorem c9_fileStatusMap_spec (changes : List FileChange) (p : String) :
    (mapGet (fileStatusMap changes) p ≠ none ↔
      p ∈ changes.map FileChange.path) ∧
    mapGet (fileStatusMap changes) p =
      (if (changes.filter (fun c => decide (c.path = p))).any
          (fun c => decide (c.type = "write")) then some ("write")
       else jsLastType ((changes.filter (fun c => decide (c.path = p))).map
          FileChange.type)) := by
  have heq := fileStatusMap_fold_spec changes [] p
  rw [show mapGet ([] : List (String × String)) p = none from rfl] at heq
  have hid : ∀ o : Option String,
      (match o with | some t => some t | none => (none : Option String)) = o := by
    intro o; cases o <;> rfl
  rw [if_neg (by simp : ¬(none : Option String) = some ("write")), hid] at heq
  have heq2 : mapGet (fileStatusMap changes) p =
      if (changes.filter (fun c => decide (c.path = p))).any
          (fun c => decide (c.type = "write")) then some ("write")
      else jsLastType ((changes.filter (fun c => decide (c.path = p))).map
          FileChange.type) := heq
  refine ⟨?_, heq2⟩
  have hfil : (changes.filter (fun c => decide (c.path = p))) ≠ [] ↔
      p ∈ changes.map FileChange.path := by
    constructor
    · intro h
      obtain ⟨c, hc⟩ := List.exists_mem_of_ne_nil _ h
      have := List.mem_filter.mp hc
      exact List.mem_map.mpr ⟨c, this.1, by simpa using this.2⟩
    · intro h hcon
      obtain ⟨c, hc, hcp⟩ := List.mem_map.mp h
      have : c ∈ changes.filter (fun c2 => decide (c2.path = p)) :=
        List.mem_filter.mpr ⟨hc, by simpa using hcp⟩
      rw [hcon] at this
      exact absurd this (List.not_mem_nil c)
  rw [heq2]
  constructor
  · intro hne
    rw [← hfil]
    intro hcon
    rw [hcon] at hne
    simp [jsLastType] at hne
  · intro hmem
    have hne := hfil.mpr hmem
    split
    · simp
    · intro hcon
      rw [jsLastType_eq_none] at hcon
      rw [List.map_eq_nil_iff] at hcon
      exact hne hcon

/-! ### Helper lemmas for the common-prefix computation (claim C1) -/

theorem splitSlashAux_ne_nil : ∀ (l acc : List Char), splitSlashAux l acc ≠ [] := by
  intro l
  induction l with
  | nil => intro acc; simp [splitSlashAux]
  | cons ch rest ih =>
    intro acc
    by_cases h : ch = '/'
    · simp [splitSlashAux, h]
    · simpa [splitSlashAux, h] using ih (ch :: acc)

theorem jsSplitSlash_length_pos (s : String) : 1 ≤ (jsSplitSlash s).length :=
  List.length_pos.mpr (splitSlashAux_ne_nil s.toList [])

theorem listMin_le_mem : ∀ (ls : List Nat), ∀ x ∈ ls, listMin ls ≤ x := by
  intro ls
  induction ls with
  | nil => intro x hx; simp at hx
  | cons n rest ih =>
    intro x hx
    cases rest with
    | nil =>
      rcases List.mem_cons.mp hx with h | h
      · subst h; exact Nat.le_refl x
      · simp at h
    | cons m rest2 =>
      rcases List.mem_cons.mp hx with h | h
      · subst h; exact Nat.min_le_left _ _
      · exact Nat.le_trans (Nat.min_le_right _ _) (ih x h)

theorem listMin_mem : ∀ (ls : List Nat), ls ≠ [] → listMin ls ∈ ls := by
  intro ls
  induction ls with
  | nil => intro h; exact absurd rfl h
  | cons n rest ih =>
    intro _
    cases rest with
    | nil => exact List.mem_cons_self n []
    | cons m rest2 =>
      show min n (listMin (m :: rest2)) ∈ n :: m :: rest2
      by_cases hnm : n ≤ listMin (m :: rest2)
      · rw [Nat.min_eq_left hnm]
        exact List.mem_cons_self n _
      · rw [Nat.min_eq_right (Nat.le_of_not_le hnm)]
        exact List.mem_cons_of_mem n (ih (List.cons_ne_nil m rest2))

/-- Characterization of the shared prefix loop: its output has length at most
`fuel`; each output position copies `first` and is agreed on by every split
path; and if the loop stopped before exhausting `fuel`, the next position is
not agreed on. -/
theorem commonPrefixLoop_spec (sps : List (List String)) (first : List String) :
    ∀ (fuel i : Nat), i + fuel ≤ first.length →
    ((commonPrefixLoop sps first fuel i).length ≤ fuel) ∧
    (∀ j, j < (commonPrefixLoop sps first fuel i).length →
       ((commonPrefixLoop sps first fuel i)[j]? = first[i + j]? ∧
        ∀ p ∈ sps, p[i + j]? = first[i + j]?)) ∧
    ((commonPrefixLoop sps first fuel i).length < fuel →
       ¬ ∀ p ∈ sps, p[i + (commonPrefixLoop sps first fuel i).length]? =
           first[i + (commonPrefixLoop sps first fuel i).length]?) := by
  intro fuel
  induction fuel with
  | zero =>
    intro i _
    refine ⟨Nat.le_refl 0, ?_, ?_⟩
    · intro j hj
      simp [commonPrefixLoop] at hj
    · intro hlt
      simp [commonPrefixLoop] at hlt
  | succ fuel ih =>
    intro i hlen
    have hi : i < first.length := by omega
    have hseg : first[i]? = some (first.get ⟨i, hi⟩) :=
      List.getElem?_eq_getElem hi
    have hunfold : commonPrefixLoop sps first (fuel + 1) i =
        (if sps.all (fun p => decide (p[i]? = some (first.get ⟨i, hi⟩))) then
          first.get ⟨i, hi⟩ :: commonPrefixLoop sps first fuel (i + 1)
        else []) := by
      simp only [commonPrefixLoop]
      rw [hseg]
    by_cases hall : sps.all (fun p => decide (p[i]? = some (first.get ⟨i, hi⟩)))
    · rw [hunfold, if_pos hall]
      obtain ⟨ihlen, ihagree, ihbreak⟩ := ih (i + 1) (by omega)
      have hallp : ∀ p ∈ sps, p[i]? = first[i]? := by
        intro p hp
        have := List.all_eq_true.mp hall p hp
        rw [hseg]
        exact of_decide_eq_true this
      refine ⟨?_, ?_, ?_⟩
      · simpa using Nat.succ_le_succ ihlen
      · intro j hj
        cases j with
        | zero =>
          refine ⟨?_, ?_⟩
          · rw [List.getElem?_cons_zero]
            exact hseg.symm
          · intro p hp
            exact hallp p hp
        | succ j' =>
          have hj' : j' < (commonPrefixLoop sps first fuel (i + 1)).length := by
            simpa using hj
          have := ihagree j' hj'
          refine ⟨?_, ?_⟩
          · rw [List.getElem?_cons_succ,
              show i + (j' + 1) = (i + 1) + j' from by omega]
            exact this.1
          · intro p hp
            rw [show i + (j' + 1) = (i + 1) + j' from by omega]
            exact this.2 p hp
      · intro hlt
        have hlt' : (commonPrefixLoop sps first fuel (i + 1)).length < fuel := by
          simpa using hlt
        have := ihbreak hlt'
        rw [show i + (first.get ⟨i, hi⟩ ::
            commonPrefixLoop sps first fuel (i + 1)).length =
            (i + 1) + (commonPrefixLoop sps first fuel (i + 1)).length from by
          simp; omega]
        exact this
    · rw [hunfold, if_neg hall]
      refine ⟨Nat.zero_le _, ?_, ?_⟩
      · intro j hj
        simp at hj
      · intro _
        intro hcon
        apply hall
        refine List.all_eq_true.mpr ?_
        intro p hp
        refine decide_eq_true ?_
        rw [← hseg]
        simpa using hcon p hp

/-- At the implementations' call site (`fuel = minLen - 1`, `i = 0`, `first`
the first split path), the loop output is a maximal shared leading-segment
sequence among those shorter than the shortest split path. -/
theorem commonParts_capped (paths : List String) (h : paths ≠ []) :
    cappedLongestCommon paths
      (commonPrefixLoop (paths.map jsSplitSlash)
        ((paths.map jsSplitSlash).headD [])
        (listMin ((paths.map jsSplitSlash).map List.length) - 1) 0) := by
  set sps := paths.map jsSplitSlash with hsps
  set first := sps.headD [] with hfirst
  set m := listMin (sps.map List.length) with hm
  set r := commonPrefixLoop sps first (m - 1) 0 with hr
  have hfm : first ∈ sps := by
    rw [hfirst]
    cases hc : sps with
    | nil =>
      rw [hsps] at hc
      exact absurd (List.map_eq_nil_iff.mp hc) h
    | cons a b => simp
  have hmle : m ≤ first.length := by
    rw [hm]
    exact listMin_le_mem _ first.length (List.mem_map.mpr ⟨first, hfm, rfl⟩)
  have hm1 : 1 ≤ m := by
    have hne : sps.map List.length ≠ [] := by
      intro hc
      rw [hsps] at hc
      simp only [List.map_eq_nil_iff] at hc
      exact h hc
    have hmem := listMin_mem (sps.map List.length) hne
    rw [← hm] at hmem
    obtain ⟨l, hl, hleq⟩ := List.mem_map.mp hmem
    obtain ⟨q, _, hql⟩ := List.mem_map.mp (by rw [hsps] at hl; exact hl)
    rw [← hleq, ← hql]
    exact jsSplitSlash_length_pos q
  obtain ⟨hlen, hagree, hbreak⟩ :=
    commonPrefixLoop_spec sps first (m - 1) 0 (by omega)
  rw [← hr] at hlen hagree hbreak
  simp only [Nat.zero_add] at hagree hbreak
  unfold cappedLongestCommon
  rw [← hsps, ← hm]
  refine ⟨?_, ?_, ?_⟩
  · intro p hp
    have hsp_mem : jsSplitSlash p ∈ sps := by
      rw [hsps]
      exact List.mem_map.mpr ⟨p, hp, rfl⟩
    refine List.ext_getElem? ?_
    intro n
    rw [List.getElem?_take]
    by_cases hn : n < r.length
    · rw [if_pos hn]
      obtain ⟨h1, h2⟩ := hagree n hn
      rw [h1]
      exact h2 (jsSplitSlash p) hsp_mem
    · rw [if_neg hn]
      exact (List.getElem?_eq_none (by omega)).symm
  · omega
  · intro segs' hsh' hcap'
    by_contra hcon
    push_neg at hcon
    have hLfuel : r.length < m - 1 := by omega
    have hnall := hbreak hLfuel
    apply hnall
    have hat : ∀ p ∈ sps, p[r.length]? = segs'[r.length]? := by
      intro p hp
      obtain ⟨q, hq, hpq⟩ := List.mem_map.mp (by rw [hsps] at hp; exact hp)
      have hq' := hsh' q hq
      have hL : r.length < segs'.length := by omega
      rw [← hpq, ← hq', List.getElem?_take, if_pos hL]
    intro p hp
    rw [hat p hp, hat first hfm]

/-- C1 (counterexample): on the two paths `a/b` and `a/b/c`, the maximal
sequence of leading segments shared by both is `["a", "b"]`, but
`buildFileTree` returns the prefix `"a"`: the loop bound `i < minLen - 1`
never lets the prefix use every segment of the shortest path. -/
theorem c1_counterexample :
    (buildFileTree [(("a/b"), ("edit")), (("a/b/c"), ("edit"))]).2 = "a" ∧
    ¬ claimedLongestCommon ["a/b", "a/b/c"]
        (buildFileTree [(("a/b"), ("edit")), (("a/b/c"), ("edit"))]).2 := by
  have hb : (buildFileTree [(("a/b"), ("edit")), (("a/b/c"), ("edit"))]).2
      = "a" := by decide
  refine ⟨hb, ?_⟩
  rintro ⟨segs, hsh, hmax, hjoin⟩
  rw [hb] at hjoin
  have h2 : sharedLeadingSegs ["a/b", "a/b/c"] ["a", "b"] := by
    unfold sharedLeadingSegs
    decide
  have hlen : 2 ≤ segs.length := by simpa using hmax ["a", "b"] h2
  have hs := hsh ("a/b") (by simp)
  rw [show jsSplitSlash ("a/b") = ["a", "b"] from by decide] at hs
  have hseg : segs = ["a", "b"] := by
    rw [← hs, List.take_of_length_le (by simpa using hlen)]
  rw [hseg] at hjoin
  exact absurd hjoin (by decide)

/-- C1 (amended): for every non-empty path list, the prefix both
implementations return joins the maximal shared leading-segment sequence
among those with at most `minLen - 1` segments (`minLen` the segment count
of the shortest path), rather than the unrestricted maximal shared sequence;
`getCommonPrefix` adds a trailing slash when the sequence is non-empty, and
for a single path keeps everything up to and including its last slash
(empty when the last slash is at index 0 or absent). -/
theorem c1_amended_capped_prefix (fm : List (String × String)) (hfm : fm ≠ [])
    (strs : List String) (h2 : 2 ≤ strs.length) (s : String) :
    (∃ segs, cappedLongestCommon (fm.map Prod.fst) segs ∧
      (buildFileTree fm).2 = joinSlash segs) ∧
    (∃ segs, cappedLongestCommon strs segs ∧
      getCommonPrefixStr strs =
        (if 0 < segs.length then joinSlash segs ++ ("/") else "")) ∧
    getCommonPrefixStr [s] =
      (if lastIndexOfChar s ('/') > 0 then
        jsTake s ((lastIndexOfChar s ('/')) + 1).toNat else "") := by
  refine ⟨?_, ?_, rfl⟩
  · have hp : fm.map Prod.fst ≠ [] := by
      intro hc
      exact hfm (List.map_eq_nil_iff.mp hc)
    refine ⟨commonPrefixLoop ((fm.map Prod.fst).map jsSplitSlash)
        (((fm.map Prod.fst).map jsSplitSlash).headD [])
        (listMin (((fm.map Prod.fst).map jsSplitSlash).map List.length) - 1) 0,
      commonParts_capped (fm.map Prod.fst) hp, ?_⟩
    simp only [buildFileTree]
    rw [if_neg hp]
  · obtain ⟨a, b, rest, rfl⟩ : ∃ a b rest, strs = a :: b :: rest := by
      cases strs with
      | nil => simp at h2
      | cons a t =>
        cases t with
        | nil => simp at h2
        | cons b rest => exact ⟨a, b, rest, rfl⟩
    exact ⟨commonPrefixLoop ((a :: b :: rest).map jsSplitSlash)
        (((a :: b :: rest).map jsSplitSlash).headD [])
        (listMin (((a :: b :: rest).map jsSplitSlash).map List.length) - 1) 0,
      commonParts_capped _ (List.cons_ne_nil a _), rfl⟩

/-- Witness for the amended C1 at concrete inputs. -/
theorem c1_amended_capped_prefix_witness :
    ((∃ segs, cappedLongestCommon
        ([(("a/b"), ("edit")), (("a/b/c"), ("edit"))].map Prod.fst) segs ∧
      (buildFileTree [(("a/b"), ("edit")), (("a/b/c"), ("edit"))]).2 =
        joinSlash segs) ∧
    (∃ segs, cappedLongestCommon ["a/b", "a/b/c"] segs ∧
      getCommonPrefixStr ["a/b", "a/b/c"] =
        (if 0 < segs.length then joinSlash segs ++ ("/") else "")) ∧
    getCommonPrefixStr ["x/y"] =
      (if lastIndexOfChar ("x/y") ('/') > 0 then
        jsTake ("x/y") ((lastIndexOfChar ("x/y") ('/')) + 1).toNat else "")) :=
  c1_amended_capped_prefix [(("a/b"), ("edit")), (("a/b/c"), ("edit"))]
    (by decide) ["a/b", "a/b/c"] (by decide) ("x/y")

end ClaudeCodeViewer
